import Mathlib

/-!
Verification of the w-shingles similarity engine.

The development shallowly embeds the core functions of `run.py` (and, where a
claim concerns it, the divergent variant in `document-similarity.py`):
token splitting, MD5-based shingle fingerprinting, bottom-k sketch selection,
Jaccard similarity, and the batched cache-and-compare driver of `main`.
Machine integers are modelled as `Nat`/`Int` with explicit reduction
modulo 2^32 where the MD5 rounds overflow, and Python float division is
modelled exactly over `ℚ` (the values the claims speak about - 0, 1/2, 1 -
are exactly representable, and Jaccard ratios are specified exactly).
-/

set_option maxRecDepth 1000000

namespace WShingles

/-! ## MD5 (as used via `hashlib.md5(x).hexdigest()` then `int(_, 16)`) -/

/-- All arithmetic in the MD5 rounds is on 32-bit words. -/
def mask32 : ℕ := 4294967295

/-- Left-rotation of a 32-bit word by `s` places (`0 ≤ s ≤ 32`). -/
def rotl32 (x s : ℕ) : ℕ := ((x <<< s) ||| (x >>> (32 - s))) &&& mask32

/-- The 64 MD5 round constants `K[i] = floor(abs(sin(i+1)) * 2^32)`. -/
def md5K : List ℕ :=
  [0xd76aa478, 0xe8c7b756, 0x242070db, 0xc1bdceee,
   0xf57c0faf, 0x4787c62a, 0xa8304613, 0xfd469501,
   0x698098d8, 0x8b44f7af, 0xffff5bb1, 0x895cd7be,
   0x6b901122, 0xfd987193, 0xa679438e, 0x49b40821,
   0xf61e2562, 0xc040b340, 0x265e5a51, 0xe9b6c7aa,
   0xd62f105d, 0x02441453, 0xd8a1e681, 0xe7d3fbc8,
   0x21e1cde6, 0xc33707d6, 0xf4d50d87, 0x455a14ed,
   0xa9e3e905, 0xfcefa3f8, 0x676f02d9, 0x8d2a4c8a,
   0xfffa3942, 0x8771f681, 0x6d9d6122, 0xfde5380c,
   0xa4beea44, 0x4bdecfa9, 0xf6bb4b60, 0xbebfbc70,
   0x289b7ec6, 0xeaa127fa, 0xd4ef3085, 0x04881d05,
   0xd9d4d039, 0xe6db99e5, 0x1fa27cf8, 0xc4ac5665,
   0xf4292244, 0x432aff97, 0xab9423a7, 0xfc93a039,
   0x655b59c3, 0x8f0ccc92, 0xffeff47d, 0x85845dd1,
   0x6fa87e4f, 0xfe2ce6e0, 0xa3014314, 0x4e0811a1,
   0xf7537e82, 0xbd3af235, 0x2ad7d2bb, 0xeb86d391]

/-- The 64 MD5 per-round left-rotation amounts. -/
def md5S : List ℕ :=
  [7, 12, 17, 22, 7, 12, 17, 22, 7, 12, 17, 22, 7, 12, 17, 22,
   5, 9, 14, 20, 5, 9, 14, 20, 5, 9, 14, 20, 5, 9, 14, 20,
   4, 11, 16, 23, 4, 11, 16, 23, 4, 11, 16, 23, 4, 11, 16, 23,
   6, 10, 15, 21, 6, 10, 15, 21, 6, 10, 15, 21, 6, 10, 15, 21]

/-- The MD5 nonlinear round function (bitwise complement is xor with the
32-bit mask, the arguments being 32-bit words). -/
def md5F (i b c d : ℕ) : ℕ :=
  if i < 16 then (b &&& c) ||| ((b ^^^ mask32) &&& d)
  else if i < 32 then (d &&& b) ||| ((d ^^^ mask32) &&& c)
  else if i < 48 then b ^^^ c ^^^ d
  else c ^^^ (b ||| (d ^^^ mask32))

/-- The MD5 message-word index schedule. -/
def md5G (i : ℕ) : ℕ :=
  if i < 16 then i
  else if i < 32 then (5 * i + 1) % 16
  else if i < 48 then (3 * i + 5) % 16
  else (7 * i) % 16

/-- The `n` least-significant bytes of `x`, little-endian. -/
def leBytes (n x : ℕ) : List ℕ := (List.range n).map (fun i => (x >>> (8 * i)) % 256)

/-- Decode a little-endian byte list into a natural number. -/
def leWord (l : List ℕ) : ℕ := l.foldr (fun b acc => b + 256 * acc) 0

/-- Fuel-indexed chunking; structural recursion on the fuel keeps it
kernel-reducible, and any fuel at least the list length gives the value. -/
def chunksFuel (b : ℕ) : ℕ → List α → List (List α)
  | 0, _ => []
  | _, [] => []
  | fuel + 1, x :: xs => (x :: xs.take (b - 1)) :: chunksFuel b fuel (xs.drop (b - 1))

/-- Split a list into consecutive chunks; callers only use it with `b ≥ 1`,
where it agrees with Python's `[lst[i:i+b] for i in range(0, len(lst), b)]`. -/
def chunksNat (b : ℕ) (l : List α) : List (List α) := chunksFuel b l.length l

/-- One MD5 compression step on a 64-byte chunk. -/
def md5Chunk (st : ℕ × ℕ × ℕ × ℕ) (chunk : List ℕ) : ℕ × ℕ × ℕ × ℕ :=
  let m := fun g => leWord ((chunk.drop (4 * g)).take 4)
  let step := fun (abcd : ℕ × ℕ × ℕ × ℕ) (i : ℕ) =>
    let f := (md5F i abcd.2.1 abcd.2.2.1 abcd.2.2.2 + abcd.1 +
              md5K.getD i 0 + m (md5G i)) % 4294967296
    (abcd.2.2.2, (abcd.2.1 + rotl32 f (md5S.getD i 0)) % 4294967296,
     abcd.2.1, abcd.2.2.1)
  let r := (List.range 64).foldl step st
  ((st.1 + r.1) % 4294967296, (st.2.1 + r.2.1) % 4294967296,
   (st.2.2.1 + r.2.2.1) % 4294967296, (st.2.2.2 + r.2.2.2) % 4294967296)

/-- MD5 digest of a byte list: pad to a multiple of 64 bytes (`0x80`, zeros,
then the bit length as 8 little-endian bytes), run the compression over each
64-byte chunk, and emit the four state words little-endian. -/
def md5Digest (msg : List ℕ) : List ℕ :=
  let padded := msg ++ 0x80 :: (List.replicate ((119 - msg.length % 64) % 64) 0
    ++ leBytes 8 (8 * msg.length))
  let r := (chunksNat 64 padded).foldl md5Chunk
    (0x67452301, 0xefcdab89, 0x98badcfe, 0x10325476)
  leBytes 4 r.1 ++ leBytes 4 r.2.1 ++ leBytes 4 r.2.2.1 ++ leBytes 4 r.2.2.2

/-- `int(hashlib.md5(msg).hexdigest(), 16)`: the hex digest read as a
big-endian integer over the 16 digest bytes. -/
def md5Int (msg : List ℕ) : ℕ := (md5Digest msg).foldl (fun acc b => 256 * acc + b) 0

/-! ## UTF-8 encoding (`shingle.encode("UTF-8")`) -/

/-- UTF-8 encoding of one code point. -/
def utf8Char (c : Char) : List ℕ :=
  let n := c.toNat
  if n < 0x80 then [n]
  else if n < 0x800 then
    [0xC0 ||| (n >>> 6), 0x80 ||| (n &&& 0x3F)]
  else if n < 0x10000 then
    [0xE0 ||| (n >>> 12), 0x80 ||| ((n >>> 6) &&& 0x3F), 0x80 ||| (n &&& 0x3F)]
  else
    [0xF0 ||| (n >>> 18), 0x80 ||| ((n >>> 12) &&& 0x3F),
     0x80 ||| ((n >>> 6) &&& 0x3F), 0x80 ||| (n &&& 0x3F)]

/-- UTF-8 encoding of a character list. -/
def utf8Bytes (s : List Char) : List ℕ := (s.map utf8Char).flatten

/-! ## Python string splitting -/

/-- The ASCII characters Python's `str.split()` treats as whitespace
(space, tab, newline, carriage return, vertical tab, form feed). -/
def isPySpace (c : Char) : Bool :=
  c == ' ' || c == '\t' || c == '\n' || c == '\r' || c.toNat == 11 || c.toNat == 12

/-- Accumulator version of no-argument `str.split()`. -/
def splitWsAux : List Char → List Char → List (List Char)
  | [], acc => if acc.isEmpty then [] else [acc.reverse]
  | c :: cs, acc =>
    if isPySpace c then
      if acc.isEmpty then splitWsAux cs [] else acc.reverse :: splitWsAux cs []
    else splitWsAux cs (c :: acc)

/-- Python `text.split()`: split on runs of whitespace, dropping empty
tokens; the empty string yields no tokens. -/
def pySplit (s : List Char) : List (List Char) := splitWsAux s []

/-- Python `document.split(" ")`: split at every single space, keeping
empty tokens; the empty string yields the single empty token. -/
def pySplitSpace : List Char → List (List Char)
  | [] => [[]]
  | c :: cs =>
    match pySplitSpace cs with
    | [] => [[]]
    | t :: ts => if c = ' ' then [] :: t :: ts else (c :: t) :: ts

/-! ## Fingerprints (`generate_fingerprint`) -/

/-- The hash of one shingle: `int(hashlib.md5(shingle.encode("UTF-8")).hexdigest(), 16)`
where the shingle is the window's tokens joined by a single space. -/
def shingleHash (window : List (List Char)) : ℕ :=
  md5Int (utf8Bytes (List.intercalate [' '] window))

/-- `generate_fingerprint(text, w)` from `run.py` (and identically
`benchmark.py`): split on whitespace; if fewer than `w` tokens, the empty
set; otherwise hash every window of `w` consecutive tokens
(`tokens[i:i+w]` for `i in range(len(tokens) - w + 1)`) into a set. -/
def generate_fingerprint (text : String) (w : ℕ) : Finset ℕ :=
  let tokens := pySplit text.data
  if tokens.length < w then ∅
  else ((List.range (tokens.length - w + 1)).map
    (fun i => shingleHash ((tokens.drop i).take w))).toFinset

/-- `generate_fingerprint(document, window_size)` from
`document-similarity.py`: split at every space character and hash the
window `tokens[i : i + window_size]` for every `i in range(0, len(tokens))`,
so trailing windows are truncated and there is no short-document guard. -/
def ds_generate_fingerprint (document : String) (window_size : ℕ) : Finset ℕ :=
  let tokens := pySplitSpace document.data
  ((List.range tokens.length).map
    (fun i => shingleHash ((tokens.drop i).take window_size))).toFinset

/-! ## Sketch selection (`select_fingerprint`) -/

/-- Python list slicing `l[:n]` for an arbitrary integer stop: a
non-negative stop takes the first `n` elements, a negative stop counts
from the end (`Int.toNat` clamps at zero exactly as Python clamps). -/
def pySliceTo (n : ℤ) (l : List α) : List α :=
  if 0 ≤ n then l.take n.toNat else l.take ((l.length + n).toNat)

/-- The ascending list of the elements of a multiset (insertion sort is
used so the kernel can evaluate it; the value is the unique sorted
enumeration, which is what Python's `sorted` returns). -/
def msortAsc (s : Multiset ℕ) : List ℕ :=
  Quot.liftOn s (fun l => List.insertionSort (fun a b => a ≤ b) l)
    (fun l₁ l₂ h => List.eq_of_perm_of_sorted
      (((List.perm_insertionSort _ l₁).trans h).trans
        (List.perm_insertionSort _ l₂).symm)
      (List.sorted_insertionSort _ l₁) (List.sorted_insertionSort _ l₂))

/-- `sorted(list(fingerprint))`: the set's elements in ascending order. -/
def sortedList (fingerprint : Finset ℕ) : List ℕ := msortAsc fingerprint.val

/-- `select_fingerprint(fingerprint, n)` (identical in `run.py` and
`document-similarity.py`): `-1` is the unbounded sentinel returning the
input unchanged; otherwise `set(sorted(fingerprint)[:n])`. -/
def select_fingerprint (fingerprint : Finset ℕ) (n : ℤ) : Finset ℕ :=
  if n = -1 then fingerprint
  else (pySliceTo n (sortedList fingerprint)).toFinset

/-! ## Similarity (`calculate_similarity`) -/

/-- `calculate_similarity(first, second)` from `run.py` (and identically
`benchmark.py`); Python float division over the set cardinalities is
modelled exactly in `ℚ`, and Python set truthiness is emptiness. -/
def calculate_similarity (first second : Finset ℕ) : ℚ :=
  if first = ∅ ∧ second = ∅ then 1
  else if first = ∅ ∨ second = ∅ then 0
  else ((first ∩ second).card : ℚ) / ((first ∪ second).card : ℚ)

/-- `calculate_similarity(first, second)` from `document-similarity.py`:
only the both-empty and second-empty cases are tested before the division. -/
def ds_calculate_similarity (first second : Finset ℕ) : ℚ :=
  if first.card = 0 ∧ second.card = 0 then 1
  else if second.card = 0 then 0
  else ((first ∩ second).card : ℚ) / ((first ∪ second).card : ℚ)

/-! ## The batched driver of `run.py`

`main` slices the entity (city) list into fixed-size batches; per batch it
collects every (city, version) → text pair into one dict, fingerprints all
of them for every width (associating pool results back to keys by zipping
the dict's key list with the result list), and then processes each city
against that batch cache.  The configuration constants `W_VALS`,
`LAMBDA_VALS` and `BATCH_SIZE` are passed as parameters here so that
claims quantifying over configurations can be stated. -/

/-- An entity (city) with its version-labelled documents, in dict order. -/
structure Entity where
  name : String
  docs : List (String × String)
deriving DecidableEq

/-- One similarity result: dimensions (entity, w, λ, other version) and the
Jaccard value, the record shape `main` stores in `all_results`. -/
structure SimRecord where
  entity : String
  width : ℕ
  lam : ℤ
  version : String
  value : ℚ
deriving DecidableEq

/-- Outcome of `process_city`: `(city_name, None)` or `(city_name, results)`. -/
inductive CityResult where
  | skipped : CityResult
  | ok : List SimRecord → CityResult
deriving DecidableEq

/-- Python dict assignment `d[k] = v` on an insertion-ordered association
list: overwrite in place if the key exists, else append. -/
def dictInsert [DecidableEq α] (k : α) (v : β) : List (α × β) → List (α × β)
  | [] => [(k, v)]
  | (k', v') :: rest =>
    if k' = k then (k, v) :: rest else (k', v') :: dictInsert k v rest

/-- Python dict subscription `d[k]`: the value at the first matching key,
`none` standing for a `KeyError`. -/
def dictGet? [DecidableEq α] (k : α) : List (α × β) → Option β
  | [] => none
  | (k', v) :: rest => if k' = k then some v else dictGet? k rest

/-- The batch's `batch_docs` dict: for each city of the batch in order, for
each of its versions in order, `batch_docs[(city_name, version)] = text`. -/
def batchDocs (batch : List Entity) : List ((String × String) × String) :=
  batch.foldl
    (fun d city => city.docs.foldl
      (fun d2 vd => dictInsert (city.name, vd.1) vd.2 d2) d) []

/-- The FINGERPRINT phase for one width `w`: one task per document text (the
dict's value list), results aligned back to the dict's key list in
lock-step (`{doc_keys[j]: results[j]}`). -/
def buildCache (batch : List Entity) (w : ℕ) : List ((String × String) × Finset ℕ) :=
  let bd := batchDocs batch
  let tasks := bd.map Prod.snd
  let results := tasks.map (fun text => generate_fingerprint text w)
  (bd.map Prod.fst).zip results

/-- The reference-version resolution of `process_city`: the key `"C"` if
present, else `"C-0"` if present, else unresolved. -/
def currentKey? (docs : List (String × String)) : Option String :=
  if "C" ∈ docs.map Prod.fst then some "C"
  else if "C-0" ∈ docs.map Prod.fst then some "C-0"
  else none

/-- `process_city` from `run.py`: resolve the reference version (skipping
the city when unresolved), then for every `w`, every `λ` and every other
version compare the selected sketches, reading both full fingerprints from
the batch cache.  A missing cache key is Python's `KeyError`, modelled as
`none`. -/
def processCity (wVals : List ℕ) (lambdaVals : List ℤ)
    (cache : ℕ → List ((String × String) × Finset ℕ)) (city : Entity) :
    Option (String × CityResult) :=
  match currentKey? city.docs with
  | none => some (city.name, CityResult.skipped)
  | some ck => do
    let recss ← wVals.mapM (fun w => do
      let currentFpFull ← dictGet? (city.name, ck) (cache w)
      lambdaVals.mapM (fun lam =>
        (city.docs.filter (fun vd => vd.1 != ck)).mapM (fun vd => do
          let pastFpFull ← dictGet? (city.name, vd.1) (cache w)
          pure (SimRecord.mk city.name w lam vd.1
            (calculate_similarity (select_fingerprint currentFpFull lam)
              (select_fingerprint pastFpFull lam))))))
    pure (city.name, CityResult.ok recss.flatten.flatten)

/-- `main`'s result collection: an `ok` city contributes its records, a
skipped city contributes its name to the skip list. -/
def collectResults (acc : List SimRecord × List String) (r : String × CityResult) :
    List SimRecord × List String :=
  match r.2 with
  | CityResult.skipped => (acc.1, acc.2 ++ [r.1])
  | CityResult.ok recs => (acc.1 ++ recs, acc.2)

/-- View of `Except` as a sum, to decide equality of run outcomes. -/
def exceptToSum : Except ε α → ε ⊕ α
  | Except.error e => Sum.inl e
  | Except.ok a => Sum.inr a

instance [DecidableEq ε] [DecidableEq α] : DecidableEq (Except ε α) := fun a b =>
  decidable_of_iff (exceptToSum a = exceptToSum b)
    (by cases a <;> cases b <;> simp [exceptToSum])

/-- The batch slicing `[lst[i:i+b] for i in range(0, len(lst), b)]` over an
integer batch size: `range` raises on a zero step, a negative step yields no
batches, and a positive step yields the usual chunks. -/
def pyChunks (b : ℤ) (l : List α) : Except String (List (List α)) :=
  if b = 0 then Except.error "range() arg 3 must not be zero"
  else if b < 0 then Except.ok []
  else Except.ok (chunksNat b.toNat l)

/-- The batched driver of `main`: slice the corpus into batches and fold
over them sequentially, per batch building the fingerprint cache for every
width and processing every city of the batch against it, accumulating
records and skipped names. -/
def runBatches (batchSize : ℤ) (wVals : List ℕ) (lambdaVals : List ℤ)
    (corpus : List Entity) : Except String (List SimRecord × List String) :=
  match pyChunks batchSize corpus with
  | Except.error e => Except.error e
  | Except.ok batches =>
    batches.foldlM
      (fun acc batch =>
        match batch.mapM (processCity wVals lambdaVals (fun w => buildCache batch w)) with
        | none => Except.error "KeyError"
        | some results => Except.ok (results.foldl collectResults acc))
      ([], [])

/-- The configured sketch sizes of `run.py` (`-1` is the infinity case). -/
def LAMBDA_VALS : List ℤ := [8, 16, 32, 64, -1]

/-- The configured shingle widths of `run.py`. -/
def W_VALS : List ℕ := [25, 50]

/-- The configured batch size of `run.py`. -/
def BATCH_SIZE : ℤ := 10

/-! ## Straight-line reference semantics

Modelled from the spec: batch partitioning "affects memory/parallelism
only, never results", so the specified result of a run is each city
processed independently against its own documents' fingerprints.  This
definition exists to be compared with `runBatches`. -/

/-- The specified per-city outcome, reading every fingerprint directly from
the city's own documents instead of a batch cache. -/
def cityOutcome (wVals : List ℕ) (lambdaVals : List ℤ) (city : Entity) :
    String × CityResult :=
  match currentKey? city.docs with
  | none => (city.name, CityResult.skipped)
  | some ck =>
    let recss := wVals.map (fun w =>
      lambdaVals.map (fun lam =>
        (city.docs.filter (fun vd => vd.1 != ck)).map (fun vd =>
          SimRecord.mk city.name w lam vd.1
            (calculate_similarity
              (select_fingerprint
                (generate_fingerprint ((dictGet? ck city.docs).getD "") w) lam)
              (select_fingerprint (generate_fingerprint vd.2 w) lam)))))
    (city.name, CityResult.ok recss.flatten.flatten)

/-- The specified whole-run result: every city processed independently, in
corpus order. -/
def runStraight (wVals : List ℕ) (lambdaVals : List ℤ) (corpus : List Entity) :
    List SimRecord × List String :=
  (corpus.map (cityOutcome wVals lambdaVals)).foldl collectResults ([], [])

/-- The (key, value) pairs one city contributes to a batch's documents. -/
def cityPairs (city : Entity) : List ((String × String) × String) :=
  city.docs.map (fun vd => ((city.name, vd.1), vd.2))

/-- All (key, value) pairs of a batch, city by city, without dict
insertion semantics; equal to `batchDocs` when all keys are distinct. -/
def flatDocs (batch : List Entity) : List ((String × String) × String) :=
  (batch.map cityPairs).flatten

/-- Folding `dictInsert` over a list of pairs. -/
def insertAll [DecidableEq α] (d ps : List (α × β)) : List (α × β) :=
  ps.foldl (fun d2 p => dictInsert p.1 p.2 d2) d

/-- The records a city outcome contributes to the run's output. -/
def recsOf : String × CityResult → List SimRecord
  | (_, CityResult.skipped) => []
  | (_, CityResult.ok recs) => recs

/-- The skip-list entry a city outcome contributes, if any. -/
def skipOf : String × CityResult → Option String
  | (n, CityResult.skipped) => some n
  | (_, CityResult.ok _) => none

/-! ## Properties of the fingerprint generators -/

/-- C1 (amended to `run.py`'s `generate_fingerprint`): for every text whose
whitespace-split token sequence has fewer than `w` tokens the fingerprint
is empty, and every fingerprint element is the hash of a full window of
exactly `w` consecutive tokens starting at some `i` with `i + w ≤ T` —
never a truncated trailing window. -/
theorem generate_fingerprint_windows (text : String) (w : ℕ) (hw : 0 < w) :
    ((pySplit text.data).length < w → generate_fingerprint text w = ∅) ∧
    ∀ hv ∈ generate_fingerprint text w, ∃ i,
      i + w ≤ (pySplit text.data).length ∧
      (((pySplit text.data).drop i).take w).length = w ∧
      hv = shingleHash (((pySplit text.data).drop i).take w) := by
  constructor
  · intro hlt
    simp [generate_fingerprint, hlt]
  · intro hv hmem
    by_cases hlt : (pySplit text.data).length < w
    · simp [generate_fingerprint, hlt] at hmem
    · simp only [generate_fingerprint, if_neg hlt, List.mem_toFinset,
        List.mem_map, List.mem_range] at hmem
      obtain ⟨i, hi, hhash⟩ := hmem
      have hwle : w ≤ (pySplit text.data).length := Nat.le_of_not_lt hlt
      refine ⟨i, by omega, ?_, hhash.symm⟩
      simp only [List.length_take, List.length_drop]
      omega

/-- C1 witness: the short-text case at a concrete input (`"a"` has one
token, `w = 2 > 0`, and the fingerprint is empty). -/
theorem generate_fingerprint_windows_witness :
    (pySplit "a".data).length < 2 ∧ generate_fingerprint "a" 2 = ∅ :=
  ⟨by decide, (generate_fingerprint_windows "a" 2 (by decide)).1 (by decide)⟩

/-- C1 counterexample: the `document-similarity.py` variant violates the
claim — `"a"` splits into one token, fewer than `w = 2`, yet its
fingerprint is non-empty (a truncated trailing window is hashed). -/
theorem ds_generate_fingerprint_short_nonempty :
    (pySplitSpace "a".data).length < 2 ∧ ds_generate_fingerprint "a" 2 ≠ ∅ := by
  decide

/-- C8: for `"a b c a b c"` with `w = 2`, the window sequence is
`"a b", "b c", "c a", "a b", "b c"` (five windows in order) and the
fingerprint has exactly 3 elements — duplicate shingles collapse and only
the 3 distinct shingle types contribute hash values. -/
theorem generate_fingerprint_example :
    (List.range ((pySplit "a b c a b c".data).length - 2 + 1)).map
      (fun i => List.intercalate [' '] (((pySplit "a b c a b c".data).drop i).take 2)) =
      ["a b".data, "b c".data, "c a".data, "a b".data, "b c".data] ∧
    (generate_fingerprint "a b c a b c" 2).card = 3 := by
  constructor
  · decide
  · decide

/-! ## Properties of the sketch selector -/

theorem msortAsc_sorted (s : Multiset ℕ) :
    List.Sorted (fun a b => a ≤ b) (msortAsc s) :=
  Quot.inductionOn s fun l => List.sorted_insertionSort _ l

theorem msortAsc_coe (s : Multiset ℕ) : (↑(msortAsc s) : Multiset ℕ) = s :=
  Quot.inductionOn s fun l => Quot.sound (List.perm_insertionSort _ l)

theorem sortedList_sorted (F : Finset ℕ) :
    List.Sorted (fun a b => a ≤ b) (sortedList F) :=
  msortAsc_sorted F.val

theorem mem_sortedList {F : Finset ℕ} {x : ℕ} : x ∈ sortedList F ↔ x ∈ F := by
  rw [← Multiset.mem_coe, sortedList, msortAsc_coe, Finset.mem_def]

theorem length_sortedList (F : Finset ℕ) : (sortedList F).length = F.card := by
  rw [Finset.card, ← Multiset.coe_card, sortedList, msortAsc_coe]

theorem nodup_sortedList (F : Finset ℕ) : (sortedList F).Nodup := by
  rw [← Multiset.coe_nodup, sortedList, msortAsc_coe]
  exact F.nodup

/-- The non-sentinel branch of the selector in closed form. -/
theorem select_fingerprint_nonneg_eq (F : Finset ℕ) (n : ℤ) (hn : 0 ≤ n) :
    select_fingerprint F n = ((sortedList F).take n.toNat).toFinset := by
  have : n ≠ -1 := by omega
  rw [select_fingerprint, if_neg this, pySliceTo, if_pos hn]

/-- C2: monotonic nesting of sketches — for `0 ≤ λ1 ≤ λ2`,
`select(F, λ1) ⊆ select(F, λ2) ⊆ F`, the sketch cardinality is
`min(λ, |F|)`, the sketch is downward closed in `F` (it consists of the
numerically smallest elements), and the sentinel `-1` returns `F`
unchanged. -/
theorem select_fingerprint_spec (F : Finset ℕ) (l1 l2 : ℤ)
    (h0 : 0 ≤ l1) (h12 : l1 ≤ l2) :
    select_fingerprint F l1 ⊆ select_fingerprint F l2 ∧
    select_fingerprint F l2 ⊆ F ∧
    (select_fingerprint F l1).card = min l1.toNat F.card ∧
    (select_fingerprint F l2).card = min l2.toNat F.card ∧
    (∀ x ∈ select_fingerprint F l1, ∀ y ∈ F, y ≤ x →
      y ∈ select_fingerprint F l1) ∧
    select_fingerprint F (-1) = F := by
  have h02 : (0 : ℤ) ≤ l2 := le_trans h0 h12
  have hcard : ∀ n : ℤ, 0 ≤ n →
      (select_fingerprint F n).card = min n.toNat F.card := by
    intro n hn
    rw [select_fingerprint_nonneg_eq F n hn,
      List.toFinset_card_of_nodup ((nodup_sortedList F).sublist
        (List.take_sublist _ _)),
      List.length_take, length_sortedList]
  have hsub : ∀ n : ℤ, 0 ≤ n → select_fingerprint F n ⊆ F := by
    intro n hn x hx
    rw [select_fingerprint_nonneg_eq F n hn, List.mem_toFinset] at hx
    exact mem_sortedList.mp (List.take_subset _ _ hx)
  refine ⟨?_, hsub l2 h02, hcard l1 h0, hcard l2 h02, ?_, ?_⟩
  · intro x hx
    rw [select_fingerprint_nonneg_eq F l1 h0, List.mem_toFinset] at hx
    rw [select_fingerprint_nonneg_eq F l2 h02, List.mem_toFinset]
    have hmin : l1.toNat = min l1.toNat l2.toNat :=
      (Nat.min_eq_left (Int.toNat_le_toNat h12)).symm
    rw [show (sortedList F).take l1.toNat
        = ((sortedList F).take l2.toNat).take l1.toNat by
      rw [List.take_take, ← hmin]] at hx
    exact List.take_subset _ _ hx
  · intro x hx y hy hyx
    rw [select_fingerprint_nonneg_eq F l1 h0, List.mem_toFinset] at hx ⊢
    by_contra hyn
    have hys : y ∈ sortedList F := mem_sortedList.mpr hy
    have hsplit := (List.take_append_drop l1.toNat (sortedList F)).symm
    have hsorted := sortedList_sorted F
    rw [hsplit] at hsorted
    have hpair := List.pairwise_append.mp hsorted
    have hyd : y ∈ (sortedList F).drop l1.toNat := by
      rw [hsplit, List.mem_append] at hys
      exact hys.resolve_left hyn
    have hxy : x ≤ y := hpair.2.2 x hx y hyd
    exact hyn (le_antisymm hyx hxy ▸ hx)
  · rw [select_fingerprint, if_pos rfl]

/-- C2 witness: nesting, cardinalities and the sentinel at a concrete
fingerprint and `λ1 = 1 ≤ λ2 = 2`. -/
theorem select_fingerprint_spec_witness :
    select_fingerprint {5, 3, 9} 1 ⊆ select_fingerprint {5, 3, 9} 2 ∧
    select_fingerprint {5, 3, 9} 2 ⊆ {5, 3, 9} ∧
    (select_fingerprint {5, 3, 9} 1).card = min (1 : ℤ).toNat ({5, 3, 9} : Finset ℕ).card ∧
    (select_fingerprint {5, 3, 9} 2).card = min (2 : ℤ).toNat ({5, 3, 9} : Finset ℕ).card ∧
    (∀ x ∈ select_fingerprint {5, 3, 9} 1, ∀ y ∈ ({5, 3, 9} : Finset ℕ), y ≤ x →
      y ∈ select_fingerprint {5, 3, 9} 1) ∧
    select_fingerprint {5, 3, 9} (-1) = {5, 3, 9} :=
  select_fingerprint_spec {5, 3, 9} 1 2 (by decide) (by decide)

/-! ## Properties of the similarity estimator -/

/-- The exact Jaccard ratio is nonnegative and at most one. -/
theorem jaccard_unit (A B : Finset ℕ) :
    0 ≤ ((A ∩ B).card : ℚ) / ((A ∪ B).card : ℚ) ∧
    ((A ∩ B).card : ℚ) / ((A ∪ B).card : ℚ) ≤ 1 := by
  constructor
  · exact div_nonneg (Nat.cast_nonneg _) (Nat.cast_nonneg _)
  · refine div_le_one_of_le₀ ?_ (Nat.cast_nonneg _)
    exact_mod_cast Finset.card_le_card
      (Finset.inter_subset_left.trans Finset.subset_union_left)

/-- C3: for all finite integer sets `A`, `B`, both similarity estimators
return 1 when both are empty, 0 when exactly one is empty, and the exact
Jaccard ratio `|A ∩ B| / |A ∪ B|` otherwise; the result always lies in
`[0, 1]`; and `similarity({1,2,3}, {2,3,4}) = 0.5`. -/
theorem calculate_similarity_spec (A B : Finset ℕ) :
    (A = ∅ ∧ B = ∅ →
      calculate_similarity A B = 1 ∧ ds_calculate_similarity A B = 1) ∧
    ((A = ∅ ∧ B ≠ ∅) ∨ (A ≠ ∅ ∧ B = ∅) →
      calculate_similarity A B = 0 ∧ ds_calculate_similarity A B = 0) ∧
    (A ≠ ∅ → B ≠ ∅ →
      calculate_similarity A B = ((A ∩ B).card : ℚ) / ((A ∪ B).card : ℚ) ∧
      ds_calculate_similarity A B = ((A ∩ B).card : ℚ) / ((A ∪ B).card : ℚ)) ∧
    (0 ≤ calculate_similarity A B ∧ calculate_similarity A B ≤ 1) ∧
    (0 ≤ ds_calculate_similarity A B ∧ ds_calculate_similarity A B ≤ 1) ∧
    calculate_similarity {1, 2, 3} {2, 3, 4} = 1 / 2 := by
  have hj := jaccard_unit A B
  refine ⟨?_, ?_, ?_, ?_, ?_, ?_⟩
  · rintro ⟨hA, hB⟩
    simp [calculate_similarity, ds_calculate_similarity, hA, hB]
  · rintro (⟨hA, hB⟩ | ⟨hA, hB⟩)
    · have hBc : B.card ≠ 0 := by
        simpa [Finset.card_eq_zero] using hB
      constructor
      · simp [calculate_similarity, hA, hB]
      · simp [ds_calculate_similarity, hA, hBc, Finset.card_eq_zero]
    · have hAc : A.card ≠ 0 := by
        simpa [Finset.card_eq_zero] using hA
      constructor
      · simp [calculate_similarity, hA, hB]
      · simp [ds_calculate_similarity, hA, hB, hAc]
  · intro hA hB
    have hBc : B.card ≠ 0 := by
      simpa [Finset.card_eq_zero] using hB
    constructor
    · simp [calculate_similarity, hA, hB]
    · simp [ds_calculate_similarity, hA, hB, hBc, Finset.card_eq_zero]
  · by_cases hA : A = ∅ <;> by_cases hB : B = ∅ <;>
      simp [calculate_similarity, hA, hB, hj.1, hj.2]
  · by_cases hA : A.card = 0 <;> by_cases hB : B.card = 0 <;>
      simp [ds_calculate_similarity, hA, hB, hj.1, hj.2]
  · have h1 : (({1, 2, 3} : Finset ℕ) ∩ {2, 3, 4}).card = 2 := by decide
    have h2 : (({1, 2, 3} : Finset ℕ) ∪ {2, 3, 4}).card = 4 := by decide
    have hne : ({1, 2, 3} : Finset ℕ) ≠ ∅ := by decide
    have hne2 : ({2, 3, 4} : Finset ℕ) ≠ ∅ := by decide
    rw [calculate_similarity, if_neg (by simp [hne]), if_neg (by simp [hne, hne2]),
      h1, h2]
    norm_num

/-- C3 witness: the exactly-one-empty and both-nonempty branches at
concrete sets. -/
theorem calculate_similarity_spec_witness :
    calculate_similarity {1, 2} ∅ = 0 ∧
    calculate_similarity {1, 2, 3} {2, 3, 4} = 1 / 2 := by
  refine ⟨?_, ?_⟩
  · exact ((calculate_similarity_spec {1, 2} ∅).2.1 (Or.inr ⟨by decide, rfl⟩)).1
  · exact (calculate_similarity_spec ∅ ∅).2.2.2.2.2

/-- C4: both similarity estimators are symmetric, and both give 1 on a set
compared with itself (including the empty set, via the both-empty rule). -/
theorem calculate_similarity_symm_self (A B : Finset ℕ) :
    calculate_similarity A B = calculate_similarity B A ∧
    ds_calculate_similarity A B = ds_calculate_similarity B A ∧
    calculate_similarity A A = 1 ∧ ds_calculate_similarity A A = 1 := by
  refine ⟨?_, ?_, ?_, ?_⟩
  · by_cases hA : A = ∅ <;> by_cases hB : B = ∅ <;>
      simp [calculate_similarity, hA, hB, Finset.inter_comm, Finset.union_comm]
  · by_cases hA : A.card = 0 <;> by_cases hB : B.card = 0 <;>
      simp_all [ds_calculate_similarity, Finset.card_eq_zero, Finset.inter_comm,
        Finset.union_comm]
  · by_cases hA : A = ∅
    · simp [calculate_similarity, hA]
    · have : (A.card : ℚ) ≠ 0 := by
        simpa [Finset.card_eq_zero] using hA
      simp [calculate_similarity, hA, div_self this]
  · by_cases hA : A.card = 0
    · simp [ds_calculate_similarity, hA]
    · have : (A.card : ℚ) ≠ 0 := by exact_mod_cast hA
      simp [ds_calculate_similarity, hA, div_self this]

/-- C10: in the `document-similarity.py` estimator, the
first-empty/second-nonempty case falls through to the division and still
returns 0, and the denominator `|first ∪ second|` is nonzero on every path
that reaches the division (all such paths have `second` nonempty). -/
theorem ds_calculate_similarity_division_safe (A B : Finset ℕ) (hB : B ≠ ∅) :
    ds_calculate_similarity ∅ B = ((∅ ∩ B).card : ℚ) / ((∅ ∪ B).card : ℚ) ∧
    ds_calculate_similarity ∅ B = 0 ∧
    (A ∪ B).card ≠ 0 := by
  have hBc : B.card ≠ 0 := by
    simpa [Finset.card_eq_zero] using hB
  refine ⟨?_, ?_, ?_⟩
  · simp [ds_calculate_similarity, hBc]
  · simp [ds_calculate_similarity, hBc]
  · simp [Finset.card_eq_zero, Finset.union_eq_empty, hB]

/-- C10 witness: the safety property at concrete sets. -/
theorem ds_calculate_similarity_division_safe_witness :
    ds_calculate_similarity ∅ {1} =
      (((∅ : Finset ℕ) ∩ {1}).card : ℚ) / (((∅ : Finset ℕ) ∪ {1}).card : ℚ) ∧
    ds_calculate_similarity ∅ {1} = 0 ∧
    (({2} : Finset ℕ) ∪ {1}).card ≠ 0 :=
  ds_calculate_similarity_division_safe {2} {1} (by decide)

/-! ## Dictionary lemmas -/

theorem dictGet?_eq_some_of_mem [DecidableEq α] {l : List (α × β)} {k : α} {v : β}
    (hn : (l.map Prod.fst).Nodup) (hm : (k, v) ∈ l) : dictGet? k l = some v := by
  induction l with
  | nil => cases hm
  | cons p rest ih =>
    rw [List.map_cons, List.nodup_cons] at hn
    rcases List.mem_cons.mp hm with h | h
    · rw [← h]
      simp [dictGet?]
    · have hne : p.1 ≠ k := fun he =>
        hn.1 (he ▸ List.mem_map.mpr ⟨(k, v), h, rfl⟩)
      obtain ⟨k', v'⟩ := p
      simpa [dictGet?, hne] using ih hn.2 h

theorem mem_of_dictGet?_eq_some [DecidableEq α] {l : List (α × β)} {k : α} {v : β}
    (h : dictGet? k l = some v) : (k, v) ∈ l := by
  induction l with
  | nil => simp [dictGet?] at h
  | cons p rest ih =>
    obtain ⟨k', v'⟩ := p
    by_cases he : k' = k
    · rw [dictGet?, if_pos he] at h
      cases h
      rw [he]
      exact List.mem_cons_self _ _
    · rw [dictGet?, if_neg he] at h
      exact List.mem_cons_of_mem _ (ih h)

theorem dictGet?_isSome_of_key_mem [DecidableEq α] {l : List (α × β)} {k : α}
    (h : k ∈ l.map Prod.fst) : ∃ v, dictGet? k l = some v := by
  induction l with
  | nil => cases h
  | cons p rest ih =>
    obtain ⟨k', v'⟩ := p
    by_cases he : k' = k
    · exact ⟨v', by rw [dictGet?, if_pos he]⟩
    · rcases List.mem_cons.mp h with h1 | h1
      · exact absurd h1.symm he
      · obtain ⟨v, hv⟩ := ih h1
        exact ⟨v, by rw [dictGet?, if_neg he]; exact hv⟩

theorem dictInsert_of_fresh [DecidableEq α] {l : List (α × β)} {k : α} (v : β)
    (h : ∀ p ∈ l, p.1 ≠ k) : dictInsert k v l = l ++ [(k, v)] := by
  induction l with
  | nil => rfl
  | cons p rest ih =>
    obtain ⟨k', v'⟩ := p
    have hne : k' ≠ k := h (k', v') (List.mem_cons_self _ _)
    simp [dictInsert, hne, ih (fun q hq => h q (List.mem_cons_of_mem _ hq))]

theorem insertAll_eq_append [DecidableEq α] (ps : List (α × β)) :
    ∀ d : List (α × β), ((d ++ ps).map Prod.fst).Nodup →
      insertAll d ps = d ++ ps := by
  induction ps with
  | nil => intro d _; simp [insertAll]
  | cons p rest ih =>
    intro d h
    have hfresh : ∀ q ∈ d, q.1 ≠ p.1 := by
      intro q hq he
      rw [List.map_append, List.nodup_append] at h
      exact h.2.2 (List.mem_map.mpr ⟨q, hq, rfl⟩)
        (by rw [he]; exact List.mem_map.mpr ⟨p, List.mem_cons_self _ _, rfl⟩)
    have hstep : dictInsert p.1 p.2 d = d ++ [p] := by
      rw [dictInsert_of_fresh p.2 hfresh]
    calc insertAll d (p :: rest)
        = insertAll (dictInsert p.1 p.2 d) rest := by
          simp [insertAll]
      _ = insertAll (d ++ [p]) rest := by rw [hstep]
      _ = (d ++ [p]) ++ rest := ih (d ++ [p]) (by simpa using h)
      _ = d ++ p :: rest := by simp

theorem dictGet?_map_snd [DecidableEq α] (h : β → γ) (k : α) :
    ∀ l : List (α × β),
      dictGet? k (l.map (fun p => (p.1, h p.2))) = (dictGet? k l).map h := by
  intro l
  induction l with
  | nil => rfl
  | cons p rest ih =>
    obtain ⟨k', v'⟩ := p
    by_cases he : k' = k <;> simp [dictGet?, he, ih]

theorem zip_map_fst_snd (h : β → γ) : ∀ l : List (α × β),
    (l.map Prod.fst).zip ((l.map Prod.snd).map h) =
      l.map (fun p => (p.1, h p.2)) := by
  intro l
  induction l with
  | nil => rfl
  | cons p rest ih =>
    simpa [Function.comp] using ih

/-! ## The batch documents dict and the fingerprint cache -/

theorem flatDocs_cons (c : Entity) (rest : List Entity) :
    flatDocs (c :: rest) = cityPairs c ++ flatDocs rest := by
  simp [flatDocs]

theorem batchDocs_aux (batch : List Entity) :
    ∀ d : List ((String × String) × String),
      ((d ++ flatDocs batch).map Prod.fst).Nodup →
      batch.foldl (fun d' city => city.docs.foldl
        (fun d2 vd => dictInsert (city.name, vd.1) vd.2 d2) d') d =
        d ++ flatDocs batch := by
  induction batch with
  | nil => intro d _; simp [flatDocs]
  | cons c rest ih =>
    intro d h
    rw [flatDocs_cons] at h
    have hpref : ((d ++ cityPairs c).map Prod.fst).Nodup := by
      refine List.Nodup.sublist (List.Sublist.map _ ?_) h
      rw [← List.append_assoc]
      exact List.sublist_append_left _ _
    have hstep : c.docs.foldl
        (fun d2 vd => dictInsert (c.name, vd.1) vd.2 d2) d = d ++ cityPairs c := by
      have : c.docs.foldl (fun d2 vd => dictInsert (c.name, vd.1) vd.2 d2) d
          = insertAll d (cityPairs c) := by
        rw [insertAll, cityPairs, List.foldl_map]
      rw [this, insertAll_eq_append (cityPairs c) d hpref]
    rw [List.foldl_cons, hstep, ih (d ++ cityPairs c) (by simpa using h),
      flatDocs_cons, List.append_assoc]

theorem batchDocs_eq_flatDocs (batch : List Entity)
    (h : ((flatDocs batch).map Prod.fst).Nodup) :
    batchDocs batch = flatDocs batch := by
  have := batchDocs_aux batch [] (by simpa using h)
  simpa [batchDocs] using this

theorem flatDocs_keys_nodup (batch : List Entity)
    (hn : (batch.map Entity.name).Nodup)
    (hd : ∀ e ∈ batch, (e.docs.map Prod.fst).Nodup) :
    ((flatDocs batch).map Prod.fst).Nodup := by
  rw [flatDocs, List.map_flatten, List.map_map]
  rw [List.nodup_flatten]
  constructor
  · intro l hl
    rw [List.mem_map] at hl
    obtain ⟨c, hc, hceq⟩ := hl
    rw [← hceq]
    have : (cityPairs c).map Prod.fst
        = (c.docs.map Prod.fst).map (fun v => (c.name, v)) := by
      simp [cityPairs, Function.comp]
    rw [Function.comp, this]
    exact (hd c hc).map (fun a b hab => by simpa using hab)
  · rw [List.pairwise_map]
    have hn' : batch.Pairwise (fun a b => a.name ≠ b.name) :=
      List.pairwise_map.mp hn
    refine hn'.imp ?_
    intro a b hab x hxa hxb
    rw [Function.comp, List.mem_map] at hxa hxb
    obtain ⟨p, hp, hpe⟩ := hxa
    obtain ⟨q, hq, hqe⟩ := hxb
    rw [cityPairs, List.mem_map] at hp hq
    obtain ⟨vd, _, hvd⟩ := hp
    obtain ⟨vd', _, hvd'⟩ := hq
    have h1 : x.1 = a.name := by rw [← hpe, ← hvd]
    have h2 : x.1 = b.name := by rw [← hqe, ← hvd']
    exact hab (h1.symm.trans h2)

theorem buildCache_eq (batch : List Entity) (w : ℕ) :
    buildCache batch w =
      (batchDocs batch).map (fun p => (p.1, generate_fingerprint p.2 w)) := by
  rw [buildCache]
  exact zip_map_fst_snd _ _

theorem buildCache_lookup (batch : List Entity) (w : ℕ) (city : Entity)
    (ver text : String)
    (hn : (batch.map Entity.name).Nodup)
    (hd : ∀ e ∈ batch, (e.docs.map Prod.fst).Nodup)
    (hc : city ∈ batch) (hv : (ver, text) ∈ city.docs) :
    dictGet? (city.name, ver) (buildCache batch w) =
      some (generate_fingerprint text w) := by
  have hkeys := flatDocs_keys_nodup batch hn hd
  have hmem : ((city.name, ver), text) ∈ flatDocs batch := by
    rw [flatDocs]
    exact List.mem_flatten.mpr
      ⟨cityPairs city, List.mem_map_of_mem _ hc,
        List.mem_map.mpr ⟨(ver, text), hv, rfl⟩⟩
  have hmap := dictGet?_map_snd (fun t => generate_fingerprint t w)
    (city.name, ver) (flatDocs batch)
  rw [buildCache_eq, batchDocs_eq_flatDocs batch hkeys, hmap,
    dictGet?_eq_some_of_mem hkeys hmem]
  rfl

/-- C7: lock-step key alignment of the FINGERPRINT phase — for every width
`w` and every (entity, version, text) document of the batch, the cache
entry at key (entity, version) is exactly `generate_fingerprint(text, w)`:
zipping the dict's key list with the parallel task result list associates
every result with the correct document key. -/
theorem fingerprint_cache_alignment (batch : List Entity) (w : ℕ)
    (city : Entity) (ver text : String)
    (hn : (batch.map Entity.name).Nodup)
    (hd : ∀ e ∈ batch, (e.docs.map Prod.fst).Nodup)
    (hc : city ∈ batch) (hv : (ver, text) ∈ city.docs) :
    dictGet? (city.name, ver) (buildCache batch w) =
      some (generate_fingerprint text w) :=
  buildCache_lookup batch w city ver text hn hd hc hv

/-- C7 witness: the alignment at a concrete two-city batch. -/
theorem fingerprint_cache_alignment_witness :
    dictGet? ("x", "C-1") (buildCache
      [Entity.mk "x" [("C", "a"), ("C-1", "b")], Entity.mk "y" [("C", "c")]] 1) =
      some (generate_fingerprint "b" 1) :=
  fingerprint_cache_alignment
    [Entity.mk "x" [("C", "a"), ("C-1", "b")], Entity.mk "y" [("C", "c")]] 1
    (Entity.mk "x" [("C", "a"), ("C-1", "b")]) "C-1" "b"
    (by decide) (by decide) (by decide) (by decide)

/-! ## `process_city` against the batch cache -/

theorem mapM_option_map {f : α → Option β} {g : α → β} :
    ∀ l : List α, (∀ x ∈ l, f x = some (g x)) → l.mapM f = some (l.map g) := by
  intro l
  induction l with
  | nil => intro _; rfl
  | cons x rest ih =>
    intro h
    rw [List.mapM_cons, h x (List.mem_cons_self _ _),
      ih (fun y hy => h y (List.mem_cons_of_mem _ hy))]
    rfl

theorem currentKey?_mem {docs : List (String × String)} {ck : String}
    (h : currentKey? docs = some ck) : ck ∈ docs.map Prod.fst := by
  rw [currentKey?] at h
  by_cases h1 : "C" ∈ docs.map Prod.fst
  · rw [if_pos h1] at h
    cases h
    exact h1
  · rw [if_neg h1] at h
    by_cases h2 : "C-0" ∈ docs.map Prod.fst
    · rw [if_pos h2] at h
      cases h
      exact h2
    · rw [if_neg h2] at h
      cases h

theorem processCity_eq_cityOutcome (wv : List ℕ) (lv : List ℤ)
    (batch : List Entity) (city : Entity)
    (hn : (batch.map Entity.name).Nodup)
    (hd : ∀ e ∈ batch, (e.docs.map Prod.fst).Nodup)
    (hc : city ∈ batch) :
    processCity wv lv (fun w => buildCache batch w) city =
      some (cityOutcome wv lv city) := by
  rcases hck : currentKey? city.docs with _ | ck
  · simp [processCity, cityOutcome, hck]
  · obtain ⟨tC, htC⟩ := dictGet?_isSome_of_key_mem (currentKey?_mem hck)
    have hmemC : (ck, tC) ∈ city.docs := mem_of_dictGet?_eq_some htC
    have hlookC : ∀ w, dictGet? (city.name, ck) (buildCache batch w) =
        some (generate_fingerprint tC w) :=
      fun w => buildCache_lookup batch w city ck tC hn hd hc hmemC
    have hstep : ∀ w ∈ wv,
        (do
          let currentFpFull ← dictGet? (city.name, ck) (buildCache batch w)
          lv.mapM (fun lam =>
            (city.docs.filter (fun vd => vd.1 != ck)).mapM (fun vd => do
              let pastFpFull ← dictGet? (city.name, vd.1) (buildCache batch w)
              pure (SimRecord.mk city.name w lam vd.1
                (calculate_similarity (select_fingerprint currentFpFull lam)
                  (select_fingerprint pastFpFull lam)))))) =
        some (lv.map (fun lam =>
          (city.docs.filter (fun vd => vd.1 != ck)).map (fun vd =>
            SimRecord.mk city.name w lam vd.1
              (calculate_similarity
                (select_fingerprint (generate_fingerprint tC w) lam)
                (select_fingerprint (generate_fingerprint vd.2 w) lam))))) := by
      intro w _
      rw [hlookC w]
      show lv.mapM _ = _
      refine mapM_option_map lv (fun lam _ => ?_)
      refine mapM_option_map _ (fun vd hvd => ?_)
      have hvmem : (vd.1, vd.2) ∈ city.docs := List.mem_of_mem_filter hvd
      rw [buildCache_lookup batch w city vd.1 vd.2 hn hd hc hvmem]
      rfl
    simp only [processCity, hck]
    rw [mapM_option_map wv hstep]
    simp only [cityOutcome, hck, htC, Option.getD_some]
    rfl

/-! ## Batch slicing -/

theorem chunksFuel_flatten (b : ℕ) :
    ∀ (fuel : ℕ) (l : List α), l.length ≤ fuel →
      (chunksFuel b fuel l).flatten = l := by
  intro fuel
  induction fuel with
  | zero =>
    intro l h
    rw [List.length_eq_zero.mp (Nat.le_zero.mp h)]
    rfl
  | succ n ih =>
    intro l h
    cases l with
    | nil => rfl
    | cons x xs =>
      rw [chunksFuel, List.flatten_cons,
        ih _ (by simp only [List.length_drop]; simp at h; omega)]
      rw [List.cons_append, List.take_append_drop]

theorem chunksNat_flatten (b : ℕ) (l : List α) : (chunksNat b l).flatten = l :=
  chunksFuel_flatten b l.length l le_rfl

theorem chunksNat_sublist (b : ℕ) (l : List α) (c : List α)
    (h : c ∈ chunksNat b l) : c.Sublist l := by
  have hs := List.sublist_flatten_of_mem h
  rwa [chunksNat_flatten] at hs

/-! ## The whole run equals the straight-line reference -/

theorem foldlM_batches (wv : List ℕ) (lv : List ℤ) (corpus : List Entity)
    (hn : (corpus.map Entity.name).Nodup)
    (hd : ∀ e ∈ corpus, (e.docs.map Prod.fst).Nodup) :
    ∀ batches : List (List Entity), (∀ bt ∈ batches, bt.Sublist corpus) →
      ∀ acc : List SimRecord × List String,
      batches.foldlM
        (fun acc batch =>
          match batch.mapM (processCity wv lv (fun w => buildCache batch w)) with
          | none => Except.error "KeyError"
          | some results => Except.ok (results.foldl collectResults acc))
        acc =
      Except.ok (batches.foldl
        (fun acc batch => (batch.map (cityOutcome wv lv)).foldl collectResults acc)
        acc) := by
  intro batches
  induction batches with
  | nil => intro _ acc; rfl
  | cons bt rest ih =>
    intro hsub acc
    have hbt : bt.Sublist corpus := hsub bt (List.mem_cons_self _ _)
    have hnb : (bt.map Entity.name).Nodup := hn.sublist (hbt.map _)
    have hdb : ∀ e ∈ bt, (e.docs.map Prod.fst).Nodup :=
      fun e he => hd e (hbt.subset he)
    have hmap : bt.mapM (processCity wv lv (fun w => buildCache bt w)) =
        some (bt.map (cityOutcome wv lv)) :=
      mapM_option_map bt (fun c hc => processCity_eq_cityOutcome wv lv bt c hnb hdb hc)
    rw [List.foldlM_cons, hmap]
    show Except.bind _ _ = _
    rw [Except.bind]
    exact ih (fun x hx => hsub x (List.mem_cons_of_mem _ hx)) _

/-- For every positive batch size, the batched run succeeds and equals the
straight-line per-entity reference result. -/
theorem runBatches_eq_runStraight (b : ℤ) (wv : List ℕ) (lv : List ℤ)
    (corpus : List Entity) (hb : 0 < b)
    (hn : (corpus.map Entity.name).Nodup)
    (hd : ∀ e ∈ corpus, (e.docs.map Prod.fst).Nodup) :
    runBatches b wv lv corpus = Except.ok (runStraight wv lv corpus) := by
  have hb0 : b ≠ 0 := by omega
  have hbneg : ¬ b < 0 := by omega
  rw [runBatches, pyChunks, if_neg hb0, if_neg hbneg]
  show List.foldlM _ ([], []) (chunksNat b.toNat corpus) = _
  rw [foldlM_batches wv lv corpus hn hd (chunksNat b.toNat corpus)
    (fun bt hbt => chunksNat_sublist _ _ bt hbt) ([], [])]
  congr 1
  rw [runStraight]
  have hfold : ∀ (L : List (List Entity)) (acc : List SimRecord × List String),
      L.foldl (fun acc batch =>
        (batch.map (cityOutcome wv lv)).foldl collectResults acc) acc =
      (L.flatten.map (cityOutcome wv lv)).foldl collectResults acc := by
    intro L
    induction L with
    | nil => intro acc; rfl
    | cons bt rest ihL =>
      intro acc
      rw [List.foldl_cons, ihL, List.flatten_cons, List.map_append,
        List.foldl_append]
  rw [hfold, chunksNat_flatten]

/-- C5: batch partitioning does not change results — for every corpus (with
the dict/directory invariants: distinct entity names, distinct version
labels per entity) and any two positive batch sizes, the runs produce
identical outputs; in particular one batch of size 20 and two batches of
size 10 yield identical similarity-record lists and skip lists. -/
theorem batch_size_invariance (b1 b2 : ℤ) (wv : List ℕ) (lv : List ℤ)
    (corpus : List Entity) (hb1 : 0 < b1) (hb2 : 0 < b2)
    (hn : (corpus.map Entity.name).Nodup)
    (hd : ∀ e ∈ corpus, (e.docs.map Prod.fst).Nodup) :
    runBatches b1 wv lv corpus = runBatches b2 wv lv corpus := by
  rw [runBatches_eq_runStraight b1 wv lv corpus hb1 hn hd,
    runBatches_eq_runStraight b2 wv lv corpus hb2 hn hd]

/-- C5 witness: one batch of size 20 versus two batches of size 10 on a
concrete two-city corpus under the configured widths and sketch sizes. -/
theorem batch_size_invariance_witness :
    runBatches 20 W_VALS LAMBDA_VALS
      [Entity.mk "x" [("C", "a b"), ("C-1", "a c")], Entity.mk "y" [("old", "z")]] =
    runBatches 10 W_VALS LAMBDA_VALS
      [Entity.mk "x" [("C", "a b"), ("C-1", "a c")], Entity.mk "y" [("old", "z")]] :=
  batch_size_invariance 20 10 W_VALS LAMBDA_VALS
    [Entity.mk "x" [("C", "a b"), ("C-1", "a c")], Entity.mk "y" [("old", "z")]]
    (by decide) (by decide) (by decide) (by decide)

/-! ## Skip handling for unresolved entities -/

theorem foldl_collectResults (rs : List (String × CityResult)) :
    ∀ a s, rs.foldl collectResults (a, s) =
      (a ++ (rs.map recsOf).flatten, s ++ rs.filterMap skipOf) := by
  induction rs with
  | nil => intro a s; simp
  | cons r rest ih =>
    intro a s
    obtain ⟨n, cr⟩ := r
    cases cr with
    | skipped => simp [collectResults, recsOf, skipOf, ih]
    | ok recs => simp [collectResults, recsOf, skipOf, ih]

theorem recsOf_cityOutcome_entity (wv : List ℕ) (lv : List ℤ) (c : Entity)
    (r : SimRecord) (hr : r ∈ recsOf (cityOutcome wv lv c)) :
    r.entity = c.name := by
  rcases hck : currentKey? c.docs with _ | ck
  · simp [cityOutcome, hck, recsOf] at hr
  · simp only [cityOutcome, hck, recsOf] at hr
    rw [List.mem_flatten] at hr
    obtain ⟨l1, hl1, hr1⟩ := hr
    rw [List.mem_flatten] at hl1
    obtain ⟨l2, hl2, hl1'⟩ := hl1
    rw [List.mem_map] at hl2
    obtain ⟨w, _, hw⟩ := hl2
    rw [← hw, List.mem_map] at hl1'
    obtain ⟨lam, _, hlam⟩ := hl1'
    rw [← hlam, List.mem_map] at hr1
    obtain ⟨vd, _, hvd⟩ := hr1
    rw [← hvd]

/-- C6: an entity with neither a `"C"` nor a `"C-0"` version is skipped by
the COMPARE phase — the run completes without error, the entity's name is
in the skip list, and no similarity record is emitted for it. -/
theorem unresolved_entity_skipped (b : ℤ) (wv : List ℕ) (lv : List ℤ)
    (corpus : List Entity) (e : Entity) (hb : 0 < b)
    (hn : (corpus.map Entity.name).Nodup)
    (hd : ∀ x ∈ corpus, (x.docs.map Prod.fst).Nodup)
    (he : e ∈ corpus)
    (hC : "C" ∉ e.docs.map Prod.fst) (hC0 : "C-0" ∉ e.docs.map Prod.fst) :
    ∃ recs skipped, runBatches b wv lv corpus = Except.ok (recs, skipped) ∧
      e.name ∈ skipped ∧ ∀ r ∈ recs, r.entity ≠ e.name := by
  have hck : currentKey? e.docs = none := by
    rw [currentKey?, if_neg hC, if_neg hC0]
  have hrun := runBatches_eq_runStraight b wv lv corpus hb hn hd
  have hsplit : runStraight wv lv corpus =
      (((corpus.map (cityOutcome wv lv)).map recsOf).flatten,
        (corpus.map (cityOutcome wv lv)).filterMap skipOf) := by
    rw [runStraight, foldl_collectResults]
    simp
  refine ⟨((corpus.map (cityOutcome wv lv)).map recsOf).flatten,
    (corpus.map (cityOutcome wv lv)).filterMap skipOf,
    by rw [hrun, hsplit], ?_, ?_⟩
  · exact List.mem_filterMap.mpr ⟨cityOutcome wv lv e, List.mem_map_of_mem _ he,
      by simp [cityOutcome, hck, skipOf]⟩
  · intro r hr heq
    rw [List.map_map] at hr
    obtain ⟨l, hl, hrl⟩ := List.mem_flatten.mp hr
    obtain ⟨c, hcmem, hceq⟩ := List.mem_map.mp hl
    have hent : r.entity = c.name := by
      refine recsOf_cityOutcome_entity wv lv c r ?_
      rw [← hceq] at hrl
      exact hrl
    have hce : c = e :=
      List.inj_on_of_nodup_map hn hcmem he (hent ▸ heq)
    have hcknone : currentKey? c.docs = none := by rw [hce]; exact hck
    rw [← hceq] at hrl
    simp [recsOf, cityOutcome, hcknone] at hrl

/-- C6 witness: a concrete corpus where entity `"y"` has versions
`current` and `old-5` but neither `"C"` nor `"C-0"`. -/
theorem unresolved_entity_skipped_witness :
    ∃ recs skipped,
      runBatches 10 [1] [0]
        [Entity.mk "x" [("C", "")],
         Entity.mk "y" [("current", ""), ("old-5", "")]] =
        Except.ok (recs, skipped) ∧
      "y" ∈ skipped ∧ ∀ r ∈ recs, r.entity ≠ "y" :=
  unresolved_entity_skipped 10 [1] [0]
    [Entity.mk "x" [("C", "")], Entity.mk "y" [("current", ""), ("old-5", "")]]
    (Entity.mk "y" [("current", ""), ("old-5", "")])
    (by decide) (by decide) (by decide) (by decide) (by decide) (by decide)

/-! ## Absence of configuration validation -/

/-- C9 (amended): `run.py` validates no configuration value — for any shingle
widths and sketch sizes whatsoever (positive or not), every positive batch
size runs to completion with the straight-line results, a negative batch
size yields an empty run, and only a batch size of exactly 0 raises (the
`range()` step error), which happens before any batch is processed. -/
theorem run_no_config_validation (wv : List ℕ) (lv : List ℤ)
    (corpus : List Entity)
    (hn : (corpus.map Entity.name).Nodup)
    (hd : ∀ e ∈ corpus, (e.docs.map Prod.fst).Nodup) :
    runBatches 0 wv lv corpus = Except.error "range() arg 3 must not be zero" ∧
    (∀ b : ℤ, 0 < b →
      runBatches b wv lv corpus = Except.ok (runStraight wv lv corpus)) ∧
    (∀ b : ℤ, b < 0 → runBatches b wv lv corpus = Except.ok ([], [])) := by
  refine ⟨?_, fun b hb => runBatches_eq_runStraight b wv lv corpus hb hn hd, ?_⟩
  · rw [runBatches, pyChunks, if_pos rfl]
  · intro b hb
    rw [runBatches, pyChunks, if_neg (by omega), if_pos hb]
    rfl

/-- C9 witness: absence of validation at a concrete corpus with the
invalid sketch size 0 among the configured values. -/
theorem run_no_config_validation_witness :
    runBatches 0 [1] [0] [Entity.mk "x" [("C", ""), ("C-1", "")]] =
      Except.error "range() arg 3 must not be zero" ∧
    (∀ b : ℤ, 0 < b →
      runBatches b [1] [0] [Entity.mk "x" [("C", ""), ("C-1", "")]] =
        Except.ok (runStraight [1] [0] [Entity.mk "x" [("C", ""), ("C-1", "")]])) ∧
    (∀ b : ℤ, b < 0 →
      runBatches b [1] [0] [Entity.mk "x" [("C", ""), ("C-1", "")]] =
        Except.ok ([], [])) :=
  run_no_config_validation [1] [0] [Entity.mk "x" [("C", ""), ("C-1", "")]]
    (by decide) (by decide)

/-- C9 counterexample: with the invalid sketch size λ = 0 (not a positive
integer and not the sentinel) the engine does not fail fast — the run
completes and produces a similarity record. -/
theorem invalid_sketch_size_still_produces_records :
    runBatches 10 [1] [0] [Entity.mk "x" [("C", ""), ("C-1", "")]] =
      Except.ok ([SimRecord.mk "x" 1 0 "C-1" 1], []) := by
  decide

end WShingles
